import Mathlib

/-!
Verification development for the volatility-arbitrage backtest engine
(`scripts/simulate_backtest.py`).

Modelling conventions:
* Python floats are modelled as real numbers (`ℝ`); machine ints as `ℤ`/`ℕ`.
* Python operations that can raise (`math.log` on a non-positive argument,
  float division by zero) are modelled by `Except`-valued helpers `pyLog`
  and `pyDiv`; every other division in the source is syntactically guarded
  by a positivity test, so plain real division is faithful there.
* `datetime` values are modelled by their unix-seconds representation
  (`ℤ`); `timedelta(minutes=15)` is `+ 900`, `timedelta(seconds=s)` is `+ s`.
* The pseudo-random draws consumed by the market simulator are threaded in
  explicitly as oracle inputs (one bundle per generated market, one bundle
  per snapshot), so every theorem quantifies over all possible draws.
* `dict`/`defaultdict(list)` state is modelled as an insertion-ordered
  association list; a `defaultdict` read of a missing key appends that key
  bound to the empty list, exactly as in CPython.
-/

noncomputable section

namespace Ploy

/-- Standard normal CDF approximation (`norm_cdf` in the source):
Abramowitz–Stegun style polynomial in `t = 1/(1+p|x|)` times `exp(-x²/2)`,
with sign handling around 0. -/
def norm_cdf (x : ℝ) : ℝ :=
  let sign : ℝ := if 0 ≤ x then 1 else -1
  let ax := |x|
  let t := 1 / (1 + 0.3275911 * ax)
  let y := 1 - (((((1.061405429 * t + -1.453152027) * t) + 1.421413741) * t +
      -0.284496736) * t + 0.254829592) * t * Real.exp (-ax * ax / 2)
  0.5 * (1 + sign * y)

/-- Inverse normal CDF approximation (`norm_inv` in the source): Acklam's
rational approximation with a low tail (`p < 0.02425`), a central region and
a high tail.  The source returns `-inf`/`+inf` for `p ≤ 0` / `p ≥ 1`; those
values have no counterpart in `ℝ`, so the two boundary branches return `0`
here — the only caller in scope (`calculate_implied_volatility`) guards
`0 < p < 1` and never reaches them. -/
def norm_inv (p : ℝ) : ℝ :=
  if p ≤ 0 then 0
  else if 1 ≤ p then 0
  else if p < 0.02425 then
    let q := Real.sqrt (-2 * Real.log p)
    (((((-7.784894002430293e-3 * q + -3.223964580411365e-1) * q + -2.400758277161838) * q +
        -2.549732539343734) * q + 4.374664141464968) * q + 2.938163982698783) /
      ((((7.784695709041462e-3 * q + 3.224671290700398e-1) * q + 2.445134137142996) * q +
        3.754408661907416) * q + 1)
  else if p ≤ 1 - 0.02425 then
    let q := p - 0.5
    let r := q * q
    (((((-3.969683028665376e1 * r + 2.209460984245205e2) * r + -2.759285104469687e2) * r +
        1.383577518672690e2) * r + -3.066479806614716e1) * r + 2.506628277459239) * q /
      (((((-5.447609879822406e1 * r + 1.615858368580409e2) * r + -1.556989798598866e2) * r +
        6.680131188771972e1) * r + -1.328068155288572e1) * r + 1)
  else
    let q := Real.sqrt (-2 * Real.log (1 - p));
    -((((((-7.784894002430293e-3) * q + -3.223964580411365e-1) * q + -2.400758277161838) * q +
        -2.549732539343734) * q + 4.374664141464968) * q + 2.938163982698783) /
      ((((7.784695709041462e-3 * q + 3.224671290700398e-1) * q + 2.445134137142996) * q +
        3.754408661907416) * q + 1)

/-- Binary-option fair YES price (`calculate_fair_yes_price` in the source). -/
def calculate_fair_yes_price (buffer volatility time_fraction : ℝ) : ℝ :=
  if volatility ≤ 0 ∨ time_fraction ≤ 0 then (if 0 < buffer then 1 else 0)
  else
    let adjusted_vol := volatility * Real.sqrt time_fraction
    if adjusted_vol < 1e-10 then (if 0 < buffer then 1 else 0)
    else max 0.001 (min 0.999 (norm_cdf (buffer / adjusted_vol)))

/-- Implied volatility back-out (`calculate_implied_volatility` in the
source).  `None` exactly on the guard; all divisors in the remaining
branches are forced nonzero by the guards (`|d2| ≥ 1e-10`, `t > 0`). -/
def calculate_implied_volatility (yes_price buffer time_fraction : ℝ) : Option ℝ :=
  if yes_price ≤ 0 ∨ 1 ≤ yes_price ∨ time_fraction ≤ 0 then none
  else if |buffer| < 1e-10 then some 0.003
  else
    let d2 := norm_inv yes_price
    if |d2| < 1e-10 then some 0.003
    else some (max 0.0001 (min 0.1 |buffer / (d2 * Real.sqrt time_fraction)|))

/-- One OHLC candle (`Kline` in the source; `open` is renamed `open_price`
because `open` is a Lean keyword). -/
structure Kline where
  timestamp : ℤ
  datetime : String
  symbol : String
  open_price : ℝ
  high : ℝ
  low : ℝ
  close : ℝ
  volume : ℝ
  trades : ℤ

/-- One simulated point-in-time market quote (a dict in the source, with
exactly these keys). -/
structure Snapshot where
  time_remaining_secs : ℤ
  spot_price : ℝ
  buffer_pct : ℝ
  fair_value : ℝ
  yes_price : ℝ
  yes_bid : ℝ
  yes_ask : ℝ
  implied_vol : ℝ
  hist_vol : ℝ

/-- A simulated 15-minute market.  `outcome` is `Optional[bool]` in the
source but is always set by the generator, so it is a plain `Bool` here. -/
structure SimulatedMarket where
  market_id : String
  symbol : String
  threshold : ℝ
  start_time : ℤ
  resolution_time : ℤ
  outcome : Bool
  snapshots : List Snapshot

/-- Trading signal produced by the strategy. -/
structure Signal where
  timestamp : ℤ
  market_id : String
  symbol : String
  direction : String
  entry_price : ℝ
  fair_value : ℝ
  price_edge : ℝ
  vol_edge_pct : ℝ
  confidence : ℝ
  buffer_pct : ℝ
  our_volatility : ℝ
  implied_volatility : ℝ
  time_remaining_secs : ℤ
  shares : ℤ

/-- Executed trade result. -/
structure Trade where
  signal : Signal
  exit_price : ℝ
  won : Bool
  pnl : ℝ
  pnl_pct : ℝ

/-- Python `math.log`: raises `ValueError: math domain error` on a
non-positive argument, modelled by `Except.error`. -/
def pyLog (x : ℝ) : Except String ℝ :=
  if 0 < x then Except.ok (Real.log x) else Except.error ("math domain error")

/-- Python float division: raises `ZeroDivisionError` when the divisor is
zero, modelled by `Except.error`. -/
def pyDiv (a b : ℝ) : Except String ℝ :=
  if b = 0 then Except.error ("float division by zero") else Except.ok (a / b)

/-- Sequential mapping with exception propagation: the Python
`for`-loop-with-`append` shape used by the simulator (an exception raised
mid-loop aborts the whole computation). -/
def mapE {α β : Type*} (f : α → Except String β) : List α → Except String (List β)
  | [] => Except.ok []
  | x :: xs => do
    let y ← f x
    let ys ← mapE f xs
    Except.ok (y :: ys)

/-- Python `round` to an integer: round half to even. -/
def pyRound (x : ℝ) : ℤ :=
  if Int.fract x < 1 / 2 then ⌊x⌋
  else if 1 / 2 < Int.fract x then ⌊x⌋ + 1
  else if 2 ∣ ⌊x⌋ then ⌊x⌋ else ⌊x⌋ + 1

/-- `int(900 * (1 - i/30))` as CPython computes it in IEEE-754 doubles for
the snapshot loop index `i = 0 … 29`: `i/30` rounds to the nearest double
and the subtraction and multiplication round again, so for `i ≥ 23` the
product lands one ulp *below* the ideal `900 - 30·i` and `int`'s
truncation toward zero loses a whole second.  The resulting grid is
`900 - 30·i` for `i ≤ 22` (900, 870, …, 240) and `899 - 30·i` for
`i ≥ 23` (209, 179, 149, 119, 89, 59, 29) — note the 31-second step
between indices 22 and 23, and that the grid ends at 29, not 30.  A
real-arithmetic `⌊900·(1 - i/30)⌋` would give `900 - 30·i` throughout and
misstate the program. -/
def pyTimeRemaining (i : ℕ) : ℤ :=
  if i < 23 then 900 - 30 * (i : ℤ) else 899 - 30 * (i : ℤ)

/-- The random draws one snapshot consumes, in draw order: the spot-path
Gaussian (`random.gauss(0, |close-open| * 0.1)`), the market-maker
volatility uniform (`random.random()`), the quote-noise Gaussian
(`random.gauss(0, noise_std)`) and the spread uniform (`random.random()`). -/
structure SnapRand where
  noise : ℝ
  mmU : ℝ
  qNoise : ℝ
  spreadU : ℝ

/-- The random draws one market consumes: whether the 30%-probability
threshold offset fires (`random.random() < 0.3`), the offset direction
(`random.choice([-1, 1])`), and the draw bundle of each snapshot. -/
structure MarketRand where
  offset : Bool
  dir : ℝ
  snap : ℕ → SnapRand

/-- Market simulator configuration (`MarketSimulator.__init__`). -/
structure MarketSimulator where
  mm_efficiency : ℝ := 0.85
  noise_std : ℝ := 0.03

/-- Threshold generation (`MarketSimulator._generate_threshold`).  `round`
with one decimal digit is modelled as `pyRound (10x) / 10` (the ideal
decimal semantics Python approximates on floats). -/
def generate_threshold (k : Kline) (offset : Bool) (dir : ℝ) : ℝ :=
  let price := k.open_price
  let base : ℝ :=
    if 10000 < price then (pyRound (price / 1000) : ℝ) * 1000
    else if 1000 < price then (pyRound (price / 100) : ℝ) * 100
    else if 100 < price then (pyRound (price / 10) : ℝ) * 10
    else (pyRound (price * 10) : ℝ) / 10
  if offset then
    if 10000 < price then base + dir * 500
    else if 1000 < price then base + dir * 50
    else if 100 < price then base + dir * 5
    else base + dir * 0.05
  else base

/-- Log-return pass of `_calculate_volatility`: for consecutive closes with
`prev > 0`, append `log (curr / prev)` (which raises when `curr ≤ 0`);
pairs with `prev ≤ 0` are skipped. -/
def volatility_returns : List (Kline × Kline) → Except String (List ℝ)
  | [] => Except.ok []
  | (prev, curr) :: rest =>
    if 0 < prev.close then do
      let r ← pyLog (curr.close / prev.close)
      let rs ← volatility_returns rest
      Except.ok (r :: rs)
    else volatility_returns rest

/-- Historical volatility (`MarketSimulator._calculate_volatility`,
`lookback = 12`). -/
def calculate_volatility (klines : List Kline) : Except String ℝ :=
  if klines.length < 2 then Except.ok 0.003
  else
    let recent := if 12 < klines.length then klines.drop (klines.length - 12) else klines
    do
      let returns ← volatility_returns (recent.zip recent.tail)
      if returns.isEmpty then Except.ok 0.003
      else
        let mean := returns.sum / (returns.length : ℝ)
        let variance := (returns.map (fun r => (r - mean) ^ 2)).sum / (returns.length : ℝ)
        Except.ok (max 0.0005 (Real.sqrt variance))

/-- Body of the snapshot loop in `MarketSimulator._generate_snapshots` for
loop index `i`; the only fallible step is the buffer division by the
threshold.  The continuous quantities keep the usual floats-as-reals
idealization; the *discretized* `int(time_remaining)` is taken as
`pyTimeRemaining i`, the value CPython's double arithmetic actually
truncates to (which differs from the real-arithmetic floor for
`i ≥ 23`). -/
def snapshot_body (sim : MarketSimulator) (k : Kline) (threshold hist_vol : ℝ)
    (r : ℕ → SnapRand) (i : ℕ) : Except String Snapshot := do
  let t : ℝ := (i : ℝ) / 30
  let time_remaining : ℝ := 900 * (1 - t)
  let base_price := k.open_price + (k.close - k.open_price) * t
  let spot_price := base_price + (r i).noise
  let buffer ← pyDiv (spot_price - threshold) threshold
  let time_fraction := time_remaining / 900
  let fair_value := calculate_fair_yes_price buffer hist_vol time_fraction
  let mm_vol := hist_vol * (0.8 + (r i).mmU * 0.4)
  let mm_fair := calculate_fair_yes_price buffer mm_vol time_fraction
  let market_yes0 := mm_fair * sim.mm_efficiency + fair_value * (1 - sim.mm_efficiency)
  let market_yes := max 0.01 (min 0.99 (market_yes0 + (r i).qNoise))
  let spread := 0.02 + (r i).spreadU * 0.02
  let yes_bid := max 0.01 (market_yes - spread / 2)
  let yes_ask := min 0.99 (market_yes + spread / 2)
  Except.ok
    { time_remaining_secs := pyTimeRemaining i
      spot_price := spot_price
      buffer_pct := buffer
      fair_value := fair_value
      yes_price := market_yes
      yes_bid := yes_bid
      yes_ask := yes_ask
      implied_vol := (calculate_implied_volatility market_yes buffer time_fraction).getD hist_vol
      hist_vol := hist_vol }

/-- Snapshot path generation (`MarketSimulator._generate_snapshots`): the
historical volatility of the trailing window, then 30 snapshots.  The
two fallible steps of the source (`math.log` inside the volatility
computation, the buffer division) propagate as `Except.error`.  The
source's `calculate_implied_volatility(...) or hist_vol` is `Option.getD`:
the function never returns `0.0`, so Python's falsy test coincides with the
`None` test. -/
def generate_snapshots (sim : MarketSimulator) (k : Kline) (threshold : ℝ)
    (history : List Kline) (r : ℕ → SnapRand) : Except String (List Snapshot) := do
  let hist_vol ← calculate_volatility history
  mapE (snapshot_body sim k threshold hist_vol r) (List.range 30)

/-- Group klines by symbol in first-occurrence order, appending each kline
to its symbol's list (`defaultdict(list)` in insertion order). -/
def groupBySymbol (klines : List Kline) : List (String × List Kline) :=
  klines.foldl
    (fun acc k =>
      if (acc.lookup k.symbol).isSome then
        acc.map (fun p => if p.1 = k.symbol then (p.1, p.2 ++ [k]) else p)
      else acc ++ [(k.symbol, [k])])
    []

/-- Stable insertion into a timestamp-sorted list (ties keep the earlier
original element first, matching Python's stable `list.sort`). -/
def insertByTimestamp (k : Kline) : List Kline → List Kline
  | [] => [k]
  | x :: xs => if k.timestamp ≤ x.timestamp then k :: x :: xs else x :: insertByTimestamp k xs

/-- Sort a symbol's klines ascending by timestamp (stable). -/
def sortByTimestamp (l : List Kline) : List Kline :=
  l.foldr insertByTimestamp []

/-- Build one market from candle `k` at index `i` of its symbol's sorted
list (body of the loop in `MarketSimulator.generate_markets`). -/
def make_market (sim : MarketSimulator) (r : MarketRand) (symbol : String)
    (k : Kline) (history : List Kline) : Except String SimulatedMarket := do
  let start_time := k.timestamp
  let resolution_time := start_time + 900
  let threshold := generate_threshold k r.offset r.dir
  let outcome := decide (threshold < k.close)
  let snapshots ← generate_snapshots sim k threshold history r.snap
  Except.ok
    { market_id := symbol ++ ("_") ++ toString k.timestamp
      symbol := symbol
      threshold := threshold
      start_time := start_time
      resolution_time := resolution_time
      outcome := outcome
      snapshots := snapshots }

/-- All markets of one symbol: candle `i` uses `symbol_klines[:i+1]` as its
trailing history. -/
def markets_for_symbol (sim : MarketSimulator) (rand : ℕ → MarketRand)
    (symbol : String) (ks : List Kline) : Except String (List SimulatedMarket) :=
  mapE (fun p => make_market sim (rand p.1) symbol p.2 (ks.take (p.1 + 1))) ks.enum

/-- `MarketSimulator.generate_markets`: group by symbol (insertion order),
sort each group by timestamp, emit one market per candle.  The global RNG
stream is modelled by the oracle `rand`, indexed by symbol and position. -/
def generate_markets (sim : MarketSimulator) (rand : String → ℕ → MarketRand)
    (klines : List Kline) : Except String (List SimulatedMarket) := do
  let groups := (groupBySymbol klines).map (fun g => (g.1, sortByTimestamp g.2))
  let lists ← mapE (fun g => markets_for_symbol sim (rand g.1) g.1 g.2) groups
  Except.ok lists.flatten

/-- The per-symbol volatility window: a `defaultdict(list)` modelled as an
insertion-ordered association list. -/
abbrev VolMap := List (String × List ℝ)

/-- A `defaultdict(list)` read: return the stored list, inserting the key
bound to `[]` (at the end, CPython insertion order) when it is missing. -/
def dictGet (st : VolMap) (k : String) : List ℝ × VolMap :=
  match st.lookup k with
  | some v => (v, st)
  | none => ([], st ++ [(k, [])])

/-- Assignment to an existing key of the dict (value replaced in place). -/
def dictSet (st : VolMap) (k : String) (v : List ℝ) : VolMap :=
  st.map (fun p => if p.1 = k then (p.1, v) else p)

/-- The strategy object (`VolatilityArbStrategy`): configuration fields
plus the mutable per-symbol volatility window. -/
structure VolatilityArbStrategy where
  min_vol_edge_pct : ℝ := 0.15
  min_price_edge : ℝ := 0.03
  min_buffer_pct : ℝ := 0.001
  max_buffer_pct : ℝ := 0.02
  min_time_remaining : ℤ := 120
  max_time_remaining : ℤ := 600
  pm_fee_rate : ℝ := 0.02
  position_size : ℤ := 100
  vol_estimates : VolMap := []

/-- `VolatilityArbStrategy.update_volatility`: append `vol` to the symbol's
window (defaultdict read first), then cap the window at the last 20
entries. -/
def update_volatility (s : VolatilityArbStrategy) (symbol : String) (vol : ℝ) :
    VolatilityArbStrategy :=
  let d := dictGet s.vol_estimates symbol
  let appended := d.1 ++ [vol]
  let capped := if 20 < appended.length then appended.drop (appended.length - 20) else appended
  { s with vol_estimates := dictSet d.2 symbol capped }

/-- `VolatilityArbStrategy.get_volatility_estimate`: linearly weighted
average (weight = position + 1) of the stored window, `0.003` when it is
empty.  The defaultdict read touches the mapping, hence the returned
strategy state. -/
def get_volatility_estimate (s : VolatilityArbStrategy) (symbol : String) :
    ℝ × VolatilityArbStrategy :=
  let d := dictGet s.vol_estimates symbol
  let estimates := d.1
  if estimates.isEmpty then (0.003, { s with vol_estimates := d.2 })
  else
    let weights := (List.range estimates.length).map (fun i : ℕ => (i : ℝ) + 1)
    (((estimates.zip weights).map (fun p => p.1 * p.2)).sum / weights.sum,
      { s with vol_estimates := d.2 })

/-- `VolatilityArbStrategy.analyze`: the sequential filter pipeline.  The
returned strategy state reflects the defaultdict touch performed by
`get_volatility_estimate` once the time and buffer gates have passed. -/
def analyze (s : VolatilityArbStrategy) (market : SimulatedMarket) (snapshot : Snapshot) :
    Option Signal × VolatilityArbStrategy :=
  let time_remaining := snapshot.time_remaining_secs
  if time_remaining < s.min_time_remaining then (none, s)
  else if s.max_time_remaining < time_remaining then (none, s)
  else
    let buffer := |snapshot.buffer_pct|
    if buffer < s.min_buffer_pct then (none, s)
    else if s.max_buffer_pct < buffer then (none, s)
    else
      let g := get_volatility_estimate s market.symbol
      let our_vol := g.1
      let implied_vol := snapshot.implied_vol
      let vol_edge := if 0 < implied_vol then |our_vol - implied_vol| / implied_vol else 0
      if vol_edge < s.min_vol_edge_pct then (none, g.2)
      else
        let time_fraction := (time_remaining : ℝ) / 900
        let fair_value := calculate_fair_yes_price snapshot.buffer_pct our_vol time_fraction
        let dir := if our_vol < implied_vol then
            (true, snapshot.yes_ask, fair_value - snapshot.yes_ask)
          else
            (false, 1 - snapshot.yes_bid, (1 - fair_value) - (1 - snapshot.yes_bid))
        let net_edge := dir.2.2 - s.pm_fee_rate
        if net_edge < s.min_price_edge then (none, g.2)
        else
          let confidence := min 1 (vol_edge * 2) * min 1 (net_edge * 10)
          (some
            { timestamp := market.start_time + (900 - time_remaining)
              market_id := market.market_id
              symbol := market.symbol
              direction := if dir.1 then ("YES") else ("NO")
              entry_price := dir.2.1
              fair_value := fair_value
              price_edge := dir.2.2
              vol_edge_pct := vol_edge
              confidence := confidence
              buffer_pct := snapshot.buffer_pct
              our_volatility := our_vol
              implied_volatility := implied_vol
              time_remaining_secs := time_remaining
              shares := s.position_size }, g.2)

/-- Mutable state of `BacktestEngine.run` while the market loop runs:
the (mutated) strategy, running equity and peak, the trade list, the
equity curve and the signal counter. -/
structure EngineState where
  strategy : VolatilityArbStrategy
  equity : ℝ
  peak_equity : ℝ
  trades : List Trade
  curve : List (ℤ × ℝ)
  signals : ℕ

/-- The engine's best-signal scan over the snapshots of one market
(`for snapshot in market.snapshots: ...`), threading the strategy state and
the `(best_signal, best_confidence)` accumulator, initially `(None, 0)`.
A signal replaces the accumulator only on strictly greater confidence. -/
def best_signal_loop (s : VolatilityArbStrategy) (market : SimulatedMarket)
    (acc : Option Signal × ℝ) :
    List Snapshot → (Option Signal × ℝ) × VolatilityArbStrategy
  | [] => (acc, s)
  | snap :: rest =>
    let r := analyze s market snap
    let acc1 := match r.1 with
      | some sig => if acc.2 < sig.confidence then (some sig, sig.confidence) else acc
      | none => acc
    best_signal_loop r.2 market acc1 rest

/-- The qualifying signals of a market, in snapshot order, under the same
strategy-state threading the engine performs: exactly the occasions on
which `analyze` returned a `Signal` during the scan. -/
def emitted_signals (s : VolatilityArbStrategy) (market : SimulatedMarket) :
    List Snapshot → List Signal
  | [] => []
  | snap :: rest =>
    let r := analyze s market snap
    match r.1 with
    | some sig => sig :: emitted_signals r.2 market rest
    | none => emitted_signals r.2 market rest

/-- The `(best_signal, best_confidence)` accumulator step of the engine's
scan, folded over an explicit signal list: the pure content of
`best_signal_loop`, used to specify it. -/
def pickAux (acc : Option Signal × ℝ) : List Signal → Option Signal × ℝ
  | [] => acc
  | sig :: rest =>
    pickAux (if acc.2 < sig.confidence then (some sig, sig.confidence) else acc) rest

/-- Trade execution for the selected best signal (trade block of
`BacktestEngine.run`). -/
def trade_of (market : SimulatedMarket) (fee_rate : ℝ) (sig : Signal) : Trade :=
  let won : Bool := (sig.direction == ("YES")) == market.outcome
  let exit_price : ℝ := if won then 1 else 0
  let cost := sig.entry_price * (sig.shares : ℝ)
  let revenue := exit_price * (sig.shares : ℝ)
  let fees := cost * fee_rate
  let pnl := revenue - cost - fees
  { signal := sig
    exit_price := exit_price
    won := won
    pnl := pnl
    pnl_pct := if 0 < cost then pnl / cost else 0 }

/-- Feed the market's first-snapshot historical volatility into the
strategy estimator (start of the engine's per-market block). -/
def feed_volatility (st : EngineState) (market : SimulatedMarket) : EngineState :=
  match market.snapshots with
  | [] => st
  | snap0 :: _ =>
    { st with strategy := update_volatility st.strategy market.symbol snap0.hist_vol }

/-- One iteration of the engine's market loop (`BacktestEngine.run`):
volatility feed, best-signal scan, then at most one executed trade with
equity/peak/curve/signal-counter updates. -/
def process_market (st : EngineState) (market : SimulatedMarket) : EngineState :=
  let st0 := feed_volatility st market
  let scan := best_signal_loop st0.strategy market (none, 0) market.snapshots
  let st1 := { st0 with strategy := scan.2 }
  match scan.1.1 with
  | none => st1
  | some sig =>
    let trade := trade_of market st1.strategy.pm_fee_rate sig
    let equity := st1.equity + trade.pnl
    { st1 with
      equity := equity
      peak_equity := if st1.peak_equity < equity then equity else st1.peak_equity
      trades := st1.trades ++ [trade]
      curve := st1.curve ++ [(market.resolution_time, equity)]
      signals := st1.signals + 1 }

/-- The engine's market loop, started from a given strategy and initial
capital. -/
def run_loop (strategy : VolatilityArbStrategy) (initial_capital : ℝ)
    (markets : List SimulatedMarket) : EngineState :=
  markets.foldl process_market
    { strategy := strategy
      equity := initial_capital
      peak_equity := initial_capital
      trades := []
      curve := []
      signals := 0 }

/-- Max-drawdown replay over the equity curve (drawdown block of
`BacktestEngine.run`): running peak from the initial capital,
`max (peak - equity) / peak`. -/
def max_drawdown_of (initial_capital : ℝ) (curve : List (ℤ × ℝ)) : ℝ :=
  (curve.foldl
    (fun (pm : ℝ × ℝ) p =>
      let peak := if pm.1 < p.2 then p.2 else pm.1
      let dd := (peak - p.2) / peak
      (peak, if pm.2 < dd then dd else pm.2))
    (initial_capital, 0)).2

/-- Aggregate run output (`BacktestResults`).  `profit_factor` (float
infinity on zero losses) and `by_symbol` (iteration over a Python `set`,
whose order is unspecified) are not modelled — no claim in scope mentions
either. -/
structure BacktestResults where
  total_markets : ℕ := 0
  total_signals : ℕ := 0
  total_trades : ℕ := 0
  winning_trades : ℕ := 0
  win_rate : ℝ := 0
  total_pnl : ℝ := 0
  avg_pnl : ℝ := 0
  max_drawdown : ℝ := 0
  sharpe_ratio : ℝ := 0
  avg_vol_edge : ℝ := 0
  avg_price_edge : ℝ := 0
  trades : List Trade := []
  equity_curve : List (ℤ × ℝ) := []

/-- `BacktestEngine.run`: the market loop followed by the aggregate
statistics block.  Statistics other than the counts stay at their zero
defaults when no trade was executed; the Sharpe ratio additionally stays 0
unless there are at least two trades, and a zero variance is replaced by a
standard deviation of `1` (exactly as in the source). -/
def run (strategy : VolatilityArbStrategy) (initial_capital : ℝ)
    (markets : List SimulatedMarket) : BacktestResults :=
  let final := run_loop strategy initial_capital markets
  let trades := final.trades
  let base : BacktestResults :=
    { total_markets := markets.length
      total_signals := final.signals
      total_trades := trades.length
      trades := trades
      equity_curve := final.curve }
  if trades.isEmpty then base
  else
    let n : ℝ := (trades.length : ℝ)
    let winning := (trades.filter (fun t => t.won)).length
    let total_pnl := (trades.map (fun t => t.pnl)).sum
    let returns := trades.map (fun t => t.pnl_pct)
    let sharpe :=
      if 1 < returns.length then
        let mean_ret := returns.sum / (returns.length : ℝ)
        let var := (returns.map (fun r => (r - mean_ret) ^ 2)).sum / (returns.length : ℝ)
        let std := if 0 < var then Real.sqrt var else 1
        mean_ret / std * Real.sqrt 100
      else base.sharpe_ratio
    { base with
      winning_trades := winning
      win_rate := (winning : ℝ) / n
      total_pnl := total_pnl
      avg_pnl := total_pnl / n
      max_drawdown := max_drawdown_of initial_capital final.curve
      sharpe_ratio := sharpe
      avg_vol_edge := (trades.map (fun t => t.signal.vol_edge_pct)).sum / n
      avg_price_edge := (trades.map (fun t => t.signal.price_edge)).sum / n }

/-- The infallible value of `snapshot_body` when the threshold is nonzero:
identical except that the buffer division is plain real division.  Used
only to state concrete evaluations of the generator. -/
def snapshot_pure (sim : MarketSimulator) (k : Kline) (threshold hist_vol : ℝ)
    (r : ℕ → SnapRand) (i : ℕ) : Snapshot :=
  let t : ℝ := (i : ℝ) / 30
  let time_remaining : ℝ := 900 * (1 - t)
  let base_price := k.open_price + (k.close - k.open_price) * t
  let spot_price := base_price + (r i).noise
  let buffer := (spot_price - threshold) / threshold
  let time_fraction := time_remaining / 900
  let fair_value := calculate_fair_yes_price buffer hist_vol time_fraction
  let mm_vol := hist_vol * (0.8 + (r i).mmU * 0.4)
  let mm_fair := calculate_fair_yes_price buffer mm_vol time_fraction
  let market_yes0 := mm_fair * sim.mm_efficiency + fair_value * (1 - sim.mm_efficiency)
  let market_yes := max 0.01 (min 0.99 (market_yes0 + (r i).qNoise))
  let spread := 0.02 + (r i).spreadU * 0.02
  let yes_bid := max 0.01 (market_yes - spread / 2)
  let yes_ask := min 0.99 (market_yes + spread / 2)
  { time_remaining_secs := pyTimeRemaining i
    spot_price := spot_price
    buffer_pct := buffer
    fair_value := fair_value
    yes_price := market_yes
    yes_bid := yes_bid
    yes_ask := yes_ask
    implied_vol := (calculate_implied_volatility market_yes buffer time_fraction).getD hist_vol
    hist_vol := hist_vol }

/-- Strategy object with all-default parameters and an empty volatility
window (`VolatilityArbStrategy()` as constructed in `main`). -/
def stratFresh : VolatilityArbStrategy := {}

/-- A concrete snapshot that passes the time and buffer gates; its
`hist_vol` of `0` drives the weighted volatility estimate to `0` once fed
to the strategy, which forces the degenerate fair-value branch. -/
def snapFix (ask : ℝ) : Snapshot :=
  { time_remaining_secs := 300
    spot_price := 101
    buffer_pct := 0.01
    fair_value := 0
    yes_price := 0.49
    yes_bid := 0.48
    yes_ask := ask
    implied_vol := 0.01
    hist_vol := 0 }

/-- A concrete one-snapshot market resolving YES. -/
def marketFix (i : ℕ) (ask : ℝ) : SimulatedMarket :=
  { market_id := ("BTC_") ++ toString i
    symbol := ("BTC")
    threshold := 100
    start_time := 900 * i
    resolution_time := 900 * i + 900
    outcome := true
    snapshots := [snapFix ask] }

/-- Simulator with default configuration. -/
def simFix : MarketSimulator := {}

/-- Degenerate random oracle: the threshold offset never fires (a 70%
probability event for each market) and all Gaussian/uniform draws are 0
(interior points of their supports). -/
def randFix : String → ℕ → MarketRand :=
  fun _ _ => { offset := false, dir := 1, snap := fun _ => ⟨0, 0, 0, 0⟩ }

/-- A one-candle fixture: flat price at `o`, close `c`. -/
def klineFix (ts : ℤ) (o c : ℝ) : Kline :=
  { timestamp := ts
    datetime := ("")
    symbol := ("BTC")
    open_price := o
    high := o
    low := o
    close := c
    volume := 0
    trades := 0 }

/-- The strategy state after one volatility feed of `0` for `BTC`. -/
def sFix1 : VolatilityArbStrategy := { stratFresh with vol_estimates := [(("BTC"), [0])] }

/-- The strategy state after two volatility feeds of `0` for `BTC`. -/
def sFix2 : VolatilityArbStrategy := { stratFresh with vol_estimates := [(("BTC"), [0, 0])] }

/-- The signal `analyze` produces on `marketFix i ask` / `snapFix ask`
when the strategy's volatility estimate is `0` (degenerate fair value 1,
YES direction, full confidence for the asks used in the fixtures). -/
def sigFix (i : ℕ) (ask : ℝ) : Signal :=
  { timestamp := 900 * (i : ℤ) + 600
    market_id := ("BTC_") ++ toString i
    symbol := ("BTC")
    direction := ("YES")
    entry_price := ask
    fair_value := 1
    price_edge := 1 - ask
    vol_edge_pct := 1
    confidence := 1
    buffer_pct := 0.01
    our_volatility := 0
    implied_volatility := 0.01
    time_remaining_secs := 300
    shares := 100 }

/-- Fixture trade: the fixture signal resolved as a YES win. -/
def tradeFix (i : ℕ) (ask pnl pct : ℝ) : Trade :=
  { signal := sigFix i ask, exit_price := 1, won := true, pnl := pnl, pnl_pct := pct }

/-- Fresh engine state with capital 1000 (as constructed in `main`). -/
def initFix : EngineState :=
  { strategy := stratFresh, equity := 1000, peak_equity := 1000, trades := [], curve := [],
    signals := 0 }

/-- The loop invariant of `BacktestEngine.run`: one equity-curve point per
trade, one counted signal per trade, equity = initial capital + realized
PnL, and the last curve point carries the current equity. -/
def EngineInv (cap : ℝ) (st : EngineState) : Prop :=
  st.trades.length = st.curve.length ∧
  st.signals = st.trades.length ∧
  st.equity = cap + (st.trades.map (fun t => t.pnl)).sum ∧
  ((st.curve.map Prod.snd).getLast? = some st.equity ∨ (st.curve = [] ∧ st.trades = []))

/-- The normal-CDF approximation at 0: the Abramowitz–Stegun coefficients
sum to `0.999999999`, so the value is `0.5·(1+1e-9)`, not exactly `1/2`. -/
lemma norm_cdf_zero : norm_cdf 0 = 0.5 * (1 + 1e-9) := by
  simp only [norm_cdf]
  norm_num [abs_zero, Real.exp_zero]

/-- Concrete at-the-money evaluation of the fair price at `vol = 1`,
`t = 1`. -/
lemma fair_yes_price_atm_eval : calculate_fair_yes_price 0 1 1 = 0.5 * (1 + 1e-9) := by
  simp only [calculate_fair_yes_price]
  rw [if_neg (by norm_num), Real.sqrt_one, mul_one, if_neg (by norm_num), zero_div,
    norm_cdf_zero, min_eq_right (by norm_num), max_eq_right (by norm_num)]

/-- C3, counterexample: the claim asserts the output lies in
`[0.001, 0.999]` for every input including the degenerate guards, but
`fairYesPrice(1, 0, 1)` takes the `volatility ≤ 0` guard and returns
exactly `1`, which exceeds `0.999`. -/
theorem claim_C3_counterexample :
    calculate_fair_yes_price 1 0 1 = 1 ∧ ¬((1 : ℝ) ≤ 0.999) := by
  constructor
  · simp only [calculate_fair_yes_price]
    norm_num
  · norm_num

/-- C3, amended: on non-degenerate inputs (`volatility > 0`,
`timeFraction > 0`, `volatility·√timeFraction ≥ 1e-10`) the output lies in
`[0.001, 0.999]`; on the remaining (degenerate-guard) inputs it is exactly
`0` or exactly `1`. -/
theorem claim_C3_fair_price_range (buffer volatility time_fraction : ℝ) :
    (0 < volatility → 0 < time_fraction →
      1e-10 ≤ volatility * Real.sqrt time_fraction →
      0.001 ≤ calculate_fair_yes_price buffer volatility time_fraction ∧
        calculate_fair_yes_price buffer volatility time_fraction ≤ 0.999) ∧
    (volatility ≤ 0 ∨ time_fraction ≤ 0 ∨ volatility * Real.sqrt time_fraction < 1e-10 →
      calculate_fair_yes_price buffer volatility time_fraction = 0 ∨
        calculate_fair_yes_price buffer volatility time_fraction = 1) := by
  constructor
  · intro hv ht hadj
    simp only [calculate_fair_yes_price]
    rw [if_neg (by push_neg; exact ⟨hv, ht⟩), if_neg (not_lt.mpr hadj)]
    exact ⟨le_max_left _ _, max_le (by norm_num) (min_le_left _ _)⟩
  · intro h
    simp only [calculate_fair_yes_price]
    split_ifs with h1 h2 h3 h4
    · right; rfl
    · left; rfl
    · right; rfl
    · left; rfl
    · exfalso
      push_neg at h1
      rcases h with hv | ht | hadj
      · exact absurd hv (not_le.mpr h1.1)
      · exact absurd ht (not_le.mpr h1.2)
      · exact h3 hadj

/-- C3, witness: the amended theorem applied at the non-degenerate input
`(0, 1, 1)` and at the degenerate input `(1, 0, 1)`. -/
theorem claim_C3_witness :
    (0.001 ≤ calculate_fair_yes_price 0 1 1 ∧ calculate_fair_yes_price 0 1 1 ≤ 0.999) ∧
    (calculate_fair_yes_price 1 0 1 = 0 ∨ calculate_fair_yes_price 1 0 1 = 1) :=
  ⟨(claim_C3_fair_price_range 0 1 1).1 (by norm_num) (by norm_num)
      (by rw [Real.sqrt_one]; norm_num),
    (claim_C3_fair_price_range 1 0 1).2 (Or.inl (by norm_num))⟩

/-- C6, confirmed: `calculate_implied_volatility` returns `none` exactly on
`yesPrice ≤ 0 ∨ yesPrice ≥ 1 ∨ timeFraction ≤ 0`; otherwise it returns
`0.003` when `|buffer| < 1e-10` or `|norm_inv yesPrice| < 1e-10`, and the
clamped `|buffer / (d2 · √timeFraction)|` in every remaining case. -/
theorem claim_C6_implied_vol_characterization (p b t : ℝ) :
    (calculate_implied_volatility p b t = none ↔ p ≤ 0 ∨ 1 ≤ p ∨ t ≤ 0) ∧
    (¬(p ≤ 0 ∨ 1 ≤ p ∨ t ≤ 0) →
      (|b| < 1e-10 ∨ |norm_inv p| < 1e-10 →
          calculate_implied_volatility p b t = some 0.003) ∧
        (1e-10 ≤ |b| → 1e-10 ≤ |norm_inv p| →
          calculate_implied_volatility p b t =
            some (max 0.0001 (min 0.1 |b / (norm_inv p * Real.sqrt t)|)))) := by
  constructor
  · constructor
    · intro h
      by_contra hg
      simp only [calculate_implied_volatility, if_neg hg] at h
      split_ifs at h
    · intro hg
      simp [calculate_implied_volatility, if_pos hg]
  · intro hg
    constructor
    · intro hd
      rcases hd with hb | hd2
      · simp only [calculate_implied_volatility, if_neg hg]
        rw [if_pos hb]
      · simp only [calculate_implied_volatility, if_neg hg]
        by_cases hb : |b| < 1e-10
        · rw [if_pos hb]
        · rw [if_neg hb, if_pos hd2]
    · intro hb hd2
      simp only [calculate_implied_volatility, if_neg hg]
      rw [if_neg (not_lt.mpr hb), if_neg (not_lt.mpr hd2)]

/-- C6, witness: the characterization applied at `(2, 1, 1)` (out-of-range
price gives `none`) and at `(1/2, 0, 1)` (at-the-money degeneracy gives
the `0.003` floor). -/
theorem claim_C6_witness :
    calculate_implied_volatility 2 1 1 = none ∧
      calculate_implied_volatility 0.5 0 1 = some 0.003 :=
  ⟨(claim_C6_implied_vol_characterization 2 1 1).1.mpr (Or.inr (Or.inl (by norm_num))),
    ((claim_C6_implied_vol_characterization 0.5 0 1).2 (by norm_num)).1
      (Or.inl (by norm_num [abs_zero]))⟩

/-- C7, counterexample: at `vol = 1`, `t = 1` (both positive) the
at-the-money fair price is `0.5·(1+1e-9) = 0.5000000005`, not exactly
`0.5` as the claim asserts — the polynomial CDF approximation at 0 is not
exactly one half. -/
theorem claim_C7_counterexample :
    (0 : ℝ) < 1 ∧ calculate_fair_yes_price 0 1 1 ≠ 0.5 := by
  refine ⟨by norm_num, ?_⟩
  rw [fair_yes_price_atm_eval]
  norm_num

/-- C7, amended: for `vol > 0`, `t > 0` with `vol·√t ≥ 1e-10` the
at-the-money price is exactly `0.5·(1+1e-9)` — within `5e-10` of a coin
flip but not equal to `0.5` (and for `0 < vol·√t < 1e-10` the degenerate
guard returns `0` instead). -/
theorem claim_C7_atm_coin_flip (vol t : ℝ) (hv : 0 < vol) (ht : 0 < t)
    (hadj : 1e-10 ≤ vol * Real.sqrt t) :
    calculate_fair_yes_price 0 vol t = 0.5 * (1 + 1e-9) := by
  simp only [calculate_fair_yes_price]
  rw [if_neg (by push_neg; exact ⟨hv, ht⟩), if_neg (not_lt.mpr hadj), zero_div,
    norm_cdf_zero, min_eq_right (by norm_num), max_eq_right (by norm_num)]

/-- C7, witness: the amended theorem applied at `vol = 1`, `t = 1`. -/
theorem claim_C7_witness :
    (0 : ℝ) < 1 ∧ calculate_fair_yes_price 0 1 1 = 0.5 * (1 + 1e-9) :=
  ⟨by norm_num,
    claim_C7_atm_coin_flip 1 1 (by norm_num) (by norm_num)
      (by rw [Real.sqrt_one]; norm_num)⟩

/-- Appending a fresh key bound to `[]` does not change any defaultdict
read (`lookup` with default `[]`). -/
lemma lookup_append_single_getD (st : VolMap) (k q : String) :
    (((st ++ [(k, [])]).lookup q).getD []) = ((st.lookup q).getD []) := by
  induction st with
  | nil =>
    cases hqk : q == k <;> simp [List.lookup, hqk]
  | cons p rest ih =>
    cases hq : q == p.1 <;> simp [List.lookup, hq, ih]

/-- A defaultdict read never changes any defaultdict read of the resulting
state. -/
lemma dictGet_lookupD (st : VolMap) (k q : String) :
    ((((dictGet st k).2).lookup q).getD []) = ((st.lookup q).getD []) := by
  simp only [dictGet]
  cases h : st.lookup k with
  | some v => simp
  | none => simpa using lookup_append_single_getD st k q

/-- The strategy state returned by `get_volatility_estimate` is exactly the
defaultdict-touched mapping. -/
lemma get_volatility_estimate_state (s : VolatilityArbStrategy) (symbol : String) :
    ((get_volatility_estimate s symbol).2).vol_estimates = (dictGet s.vol_estimates symbol).2 := by
  simp only [get_volatility_estimate]
  split_ifs <;> rfl

/-- C9, amended: `analyze` and `get_volatility_estimate` never change the
estimates stored for any symbol — the volatility mapping read through the
defaultdict's empty default is pointwise unchanged — but a call may insert
a previously missing key bound to the empty list (CPython `defaultdict`
auto-vivification), so the key *set* can grow; only `update_volatility`
appends estimates. -/
theorem claim_C9_analyze_frame (s : VolatilityArbStrategy) (market : SimulatedMarket)
    (snapshot : Snapshot) (symbol q : String) :
    ((((analyze s market snapshot).2).vol_estimates.lookup q).getD []) =
        ((s.vol_estimates.lookup q).getD []) ∧
      ((((get_volatility_estimate s symbol).2).vol_estimates.lookup q).getD []) =
        ((s.vol_estimates.lookup q).getD []) := by
  have hg : ∀ sym, ((((get_volatility_estimate s sym).2).vol_estimates.lookup q).getD []) =
      ((s.vol_estimates.lookup q).getD []) := by
    intro sym
    rw [get_volatility_estimate_state]
    exact dictGet_lookupD _ _ _
  refine ⟨?_, hg symbol⟩
  simp only [analyze]
  split_ifs <;> first | rfl | exact hg market.symbol

/-- The second component of the three-way branch at the tail of `analyze`
is the touched strategy state whichever branch is taken. -/
lemma snd_ite_pair {α β : Type*} (c₁ c₂ : Prop) [Decidable c₁] [Decidable c₂]
    (a b d : α) (s : β) :
    (if c₁ then (a, s) else if c₂ then (b, s) else (d, s)).2 = s := by
  split_ifs <;> rfl

/-- Reading the estimate of a fresh strategy returns the `0.003` default
and inserts the symbol with an empty window. -/
lemma getVol_fresh_eval :
    get_volatility_estimate stratFresh ("BTC") =
      (0.003, { stratFresh with vol_estimates := [(("BTC"), [])] }) := rfl

/-- C9, counterexample: on a fresh strategy, one `analyze` call whose time
and buffer gates pass inserts the missing symbol into `vol_estimates`
(bound to `[]`), so the mapping — in particular its key set — is *not*
left exactly as it was, contrary to the claim. -/
theorem claim_C9_counterexample :
    ((analyze stratFresh (marketFix 0 0.5) (snapFix 0.5)).2).vol_estimates.map Prod.fst =
        [("BTC")] ∧
      stratFresh.vol_estimates.map Prod.fst = [] ∧ ([("BTC")] : List String) ≠ [] := by
  refine ⟨?_, rfl, by simp⟩
  have habs : |(0.01 : ℝ)| = 0.01 := abs_of_pos (by norm_num)
  simp only [analyze, marketFix, snapFix]
  rw [if_neg (by norm_num [stratFresh]), if_neg (by norm_num [stratFresh]),
    if_neg (by rw [habs]; norm_num [stratFresh]), if_neg (by rw [habs]; norm_num [stratFresh]),
    snd_ite_pair, getVol_fresh_eval]
  rfl

/-- A successful `mapE` relates input and output pointwise. -/
lemma mapE_forall₂ {α β : Type*} (f : α → Except String β) :
    ∀ (l : List α) (ys : List β), mapE f l = Except.ok ys →
      List.Forall₂ (fun x y => f x = Except.ok y) l ys := by
  intro l
  induction l with
  | nil =>
    intro ys h
    simp only [mapE] at h
    cases h
    exact List.Forall₂.nil
  | cons x xs ih =>
    intro ys h
    simp only [mapE] at h
    cases hx : f x with
    | error e => rw [hx] at h; exact Except.noConfusion h
    | ok y =>
      rw [hx] at h
      cases hxs : mapE f xs with
      | error e => rw [hxs] at h; exact Except.noConfusion h
      | ok ys1 =>
        rw [hxs] at h
        cases h
        exact List.Forall₂.cons hx (ih ys1 hxs)

/-- `mapE` of a pointwise infallible function is `map`. -/
lemma mapE_ok_of_forall {α β : Type*} (f : α → Except String β) (g : α → β) :
    ∀ (l : List α), (∀ x ∈ l, f x = Except.ok (g x)) → mapE f l = Except.ok (l.map g) := by
  intro l
  induction l with
  | nil => intro _; rfl
  | cons x xs ih =>
    intro h
    simp only [mapE]
    rw [h x (List.mem_cons_self x xs), ih (fun y hy => h y (List.mem_cons_of_mem x hy))]
    rfl

/-- Transport a pointwise equality along a `Forall₂`. -/
lemma forall₂_map_eq {α β γ : Type*} (R : α → β → Prop) (f : β → γ) (g : α → γ)
    (hfg : ∀ x y, R x y → f y = g x) :
    ∀ {l : List α} {ys : List β}, List.Forall₂ R l ys → ys.map f = l.map g := by
  intro l ys h
  induction h with
  | nil => rfl
  | cons hR _ ih => simp [ih, hfg _ _ hR]

/-- A snapshot successfully produced for loop index `i` carries
`time_remaining_secs = pyTimeRemaining i`. -/
lemma snapshot_body_time (sim : MarketSimulator) (k : Kline) (threshold hist_vol : ℝ)
    (r : ℕ → SnapRand) (i : ℕ) (s : Snapshot)
    (h : snapshot_body sim k threshold hist_vol r i = Except.ok s) :
    s.time_remaining_secs = pyTimeRemaining i := by
  simp only [snapshot_body] at h
  cases hdiv : pyDiv (k.open_price + (k.close - k.open_price) * ((i : ℝ) / 30) +
      (r i).noise - threshold) threshold with
  | error e => rw [hdiv] at h; exact Except.noConfusion h
  | ok b =>
    rw [hdiv] at h
    cases h
    rfl

/-- Successfully generated snapshot lists carry the full time grid
`pyTimeRemaining i`, `i = 0 … 29`. -/
lemma generate_snapshots_times (sim : MarketSimulator) (k : Kline) (threshold : ℝ)
    (hist : List Kline) (r : ℕ → SnapRand) (snaps : List Snapshot)
    (h : generate_snapshots sim k threshold hist r = Except.ok snaps) :
    snaps.map (fun s => s.time_remaining_secs) =
      (List.range 30).map pyTimeRemaining := by
  simp only [generate_snapshots] at h
  cases hv : calculate_volatility hist with
  | error e => rw [hv] at h; exact Except.noConfusion h
  | ok v =>
    rw [hv] at h
    have h2 : mapE (snapshot_body sim k threshold v r) (List.range 30) = Except.ok snaps := h
    exact forall₂_map_eq _ _ _
      (fun i s hs => snapshot_body_time sim k threshold v r i s hs)
      (mapE_forall₂ _ _ _ h2)

/-- A successfully built market carries the full time grid. -/
lemma make_market_times (sim : MarketSimulator) (r : MarketRand) (symbol : String)
    (k : Kline) (hist : List Kline) (m : SimulatedMarket)
    (h : make_market sim r symbol k hist = Except.ok m) :
    m.snapshots.map (fun s => s.time_remaining_secs) =
      (List.range 30).map pyTimeRemaining := by
  simp only [make_market] at h
  cases hs : generate_snapshots sim k (generate_threshold k r.offset r.dir) hist r.snap with
  | error e => rw [hs] at h; exact Except.noConfusion h
  | ok snaps =>
    rw [hs] at h
    cases h
    exact generate_snapshots_times _ _ _ _ _ _ hs

/-- Right-membership extraction from a `Forall₂`. -/
lemma forall₂_mem_right {α β : Type*} (R : α → β → Prop) :
    ∀ {l : List α} {ys : List β}, List.Forall₂ R l ys → ∀ y ∈ ys, ∃ x ∈ l, R x y := by
  intro l ys h
  induction h with
  | nil => intro y hy; cases hy
  | cons hR _ ih =>
    intro y hy
    rcases List.mem_cons.mp hy with rfl | hy2
    · exact ⟨_, List.mem_cons_self _ _, hR⟩
    · rcases ih y hy2 with ⟨x, hx, hRx⟩
      exact ⟨x, List.mem_cons_of_mem _ hx, hRx⟩

/-- Every market produced by a successful `generate_markets` run carries
the full time grid. -/
lemma generate_markets_times (sim : MarketSimulator) (rand : String → ℕ → MarketRand)
    (klines : List Kline) (ms : List SimulatedMarket)
    (h : generate_markets sim rand klines = Except.ok ms) :
    ∀ m ∈ ms, m.snapshots.map (fun s => s.time_remaining_secs) =
      (List.range 30).map pyTimeRemaining := by
  simp only [generate_markets] at h
  cases hl : mapE (fun g => markets_for_symbol sim (rand g.1) g.1 g.2)
      ((groupBySymbol klines).map (fun g => (g.1, sortByTimestamp g.2))) with
  | error e => rw [hl] at h; exact Except.noConfusion h
  | ok lists =>
    rw [hl] at h
    cases h
    intro m hm
    rcases List.mem_flatten.mp hm with ⟨lst, hlst, hmlst⟩
    rcases forall₂_mem_right _ (mapE_forall₂ _ _ _ hl) lst hlst with ⟨g, _, hgm⟩
    have hgm2 : mapE (fun p => make_market sim (rand g.1 p.1) g.1 p.2
        (g.2.take (p.1 + 1))) g.2.enum = Except.ok lst := by
      simpa [markets_for_symbol] using hgm
    rcases forall₂_mem_right _ (mapE_forall₂ _ _ _ hgm2) m hmlst with ⟨p, _, hpm⟩
    exact make_market_times _ _ _ _ _ _ hpm

/-- The 30-point grid written out: exact 30-second steps from 900 down to
240, then the seven IEEE-truncated values 209 … 29. -/
lemma pyTimeGrid_eval :
    (List.range 30).map pyTimeRemaining =
      [900, 870, 840, 810, 780, 750, 720, 690, 660, 630, 600, 570, 540, 510, 480, 450,
        420, 390, 360, 330, 300, 270, 240, 209, 179, 149, 119, 89, 59, 29] := by
  decide

/-- C2, amended: every market a successful `generate_markets` run produces
has exactly 30 snapshots whose `time_remaining_secs` decrease strictly
from 900, in 30-second steps down to 240 (indices 0 … 22); from index 23
on, CPython's double arithmetic rounds `900·(1 - i/30)` one ulp below the
ideal multiple of 30 and `int` truncates it, so the remaining values are
209, 179, 149, 119, 89, 59 and finally **29** (a 31-second step between
indices 22 and 23).  The value never reaches 0, so the final 29 seconds
of the window are not covered (on a failed run the market list is empty
and the statement is vacuous). -/
theorem claim_C2_snapshot_time_grid (sim : MarketSimulator)
    (rand : String → ℕ → MarketRand) (klines : List Kline) :
    ((generate_markets sim rand klines).toOption.getD []).map
        (fun m => m.snapshots.map (fun s => s.time_remaining_secs)) =
      List.replicate ((generate_markets sim rand klines).toOption.getD []).length
        [900, 870, 840, 810, 780, 750, 720, 690, 660, 630, 600, 570, 540, 510, 480, 450,
          420, 390, 360, 330, 300, 270, 240, 209, 179, 149, 119, 89, 59, 29] := by
  cases h : generate_markets sim rand klines with
  | error e => simp [Except.toOption]
  | ok ms =>
    simp only [Except.toOption, Option.getD]
    refine List.eq_replicate_iff.mpr ⟨by simp, ?_⟩
    intro b hb
    rcases List.mem_map.mp hb with ⟨m, hm, rfl⟩
    rw [← pyTimeGrid_eval]
    exact generate_markets_times _ _ _ _ h m hm

/-- `pyRound` is the identity on integer values. -/
lemma pyRound_intCast (n : ℤ) : pyRound ((n : ℤ) : ℝ) = n := by
  norm_num [pyRound, Int.fract_intCast, Int.floor_intCast]

/-- Threshold for a candle opening at 100 with no random offset:
`round(100, 1) = 100`. -/
lemma generate_threshold_eval_100 (ts : ℤ) (c : ℝ) (d : ℝ) :
    generate_threshold (klineFix ts 100 c) false d = 100 := by
  simp only [generate_threshold, klineFix, if_neg (by norm_num : ¬((10000 : ℝ) < 100)),
    if_neg (by norm_num : ¬((1000 : ℝ) < 100)), if_neg (by norm_num : ¬((100 : ℝ) < 100)),
    if_neg (Bool.false_ne_true)]
  rw [show (100 : ℝ) * 10 = ((1000 : ℤ) : ℝ) by norm_num, pyRound_intCast]
  norm_num

/-- Threshold for a candle opening at 1 with no random offset:
`round(1, 1) = 1`. -/
lemma generate_threshold_eval_1 (ts : ℤ) (c : ℝ) (d : ℝ) :
    generate_threshold (klineFix ts 1 c) false d = 1 := by
  simp only [generate_threshold, klineFix, if_neg (by norm_num : ¬((10000 : ℝ) < 1)),
    if_neg (by norm_num : ¬((1000 : ℝ) < 1)), if_neg (by norm_num : ¬((100 : ℝ) < 1)),
    if_neg (Bool.false_ne_true)]
  rw [show (1 : ℝ) * 10 = ((10 : ℤ) : ℝ) by norm_num, pyRound_intCast]
  norm_num

/-- One candle of history: fewer than 2 points, so the volatility default
`0.003` is returned. -/
lemma calculate_volatility_single (k : Kline) :
    calculate_volatility [k] = Except.ok 0.003 := rfl

/-- The snapshot body never fails when the threshold is nonzero, and
produces `snapshot_pure`. -/
lemma snapshot_body_ok (sim : MarketSimulator) (k : Kline) (threshold hist_vol : ℝ)
    (r : ℕ → SnapRand) (i : ℕ) (hθ : threshold ≠ 0) :
    snapshot_body sim k threshold hist_vol r i =
      Except.ok (snapshot_pure sim k threshold hist_vol r i) := by
  simp only [snapshot_body, snapshot_pure, pyDiv, if_neg hθ]
  rfl

/-- Snapshot generation with a nonzero threshold and successful volatility
computation yields the 30 pure snapshots. -/
lemma generate_snapshots_ok (sim : MarketSimulator) (k : Kline) (threshold : ℝ)
    (hist : List Kline) (hv : ℝ) (r : ℕ → SnapRand) (hθ : threshold ≠ 0)
    (hvol : calculate_volatility hist = Except.ok hv) :
    generate_snapshots sim k threshold hist r =
      Except.ok ((List.range 30).map (snapshot_pure sim k threshold hv r)) := by
  simp only [generate_snapshots, hvol]
  exact mapE_ok_of_forall _ _ _ (fun i _ => snapshot_body_ok sim k threshold hv r i hθ)

/-- Full evaluation of `generate_markets` on the single flat candle at
price 100: one market, whose snapshots are the 30 pure snapshots for
threshold 100 and default volatility. -/
lemma generate_markets_eval_100 :
    generate_markets simFix randFix [klineFix 0 100 100] =
      Except.ok
        [{ market_id := ("BTC_0")
           symbol := ("BTC")
           threshold := 100
           start_time := 0
           resolution_time := 900
           outcome := false
           snapshots := (List.range 30).map
             (snapshot_pure simFix (klineFix 0 100 100) 100 0.003 (randFix ("BTC") 0).snap) }] := by
  have hθ : generate_threshold (klineFix 0 100 100) (randFix ("BTC") 0).offset
      (randFix ("BTC") 0).dir = 100 := generate_threshold_eval_100 0 100 1
  have hsnap := generate_snapshots_ok simFix (klineFix 0 100 100) 100 [klineFix 0 100 100]
    0.003 ((randFix ("BTC") 0).snap) (by norm_num) (calculate_volatility_single _)
  have hgroups : (groupBySymbol [klineFix 0 100 100]).map
      (fun g => (g.1, sortByTimestamp g.2)) = [(("BTC"), [klineFix 0 100 100])] := rfl
  have houtcome : decide ((100 : ℝ) < (klineFix 0 100 100).close) = false := by
    simp [klineFix]
  have hsym : (klineFix 0 100 100).symbol = ("BTC") := rfl
  have hts : (klineFix 0 100 100).timestamp = 0 := rfl
  have henum : ([klineFix 0 100 100].enum) = [(0, klineFix 0 100 100)] := rfl
  have htake : List.take (0 + 1) (sortByTimestamp [klineFix 0 100 100]) =
      [klineFix 0 100 100] := rfl
  simp only [generate_markets, hgroups, markets_for_symbol, make_market, mapE, hsym, hts,
    henum, htake, hθ, hsnap, houtcome]
  rfl

/-- C2, counterexample: for the single flat candle at price 100 the (one)
generated market's last snapshot has `time_remaining_secs = 29` (the
IEEE-truncated value of `int(900·(1 - 29/30))`), not 0 — the snapshot
grid does not span the window down to 0 as the claim states. -/
theorem claim_C2_counterexample :
    ((generate_markets simFix randFix [klineFix 0 100 100]).toOption.getD []).map
        (fun m => (m.snapshots.map (fun s => s.time_remaining_secs)).getLast?) =
      [some 29] ∧ (29 : ℤ) ≠ 0 := by
  refine ⟨?_, by norm_num⟩
  rw [generate_markets_eval_100]
  have htimes : (((List.range 30).map
      (snapshot_pure simFix (klineFix 0 100 100) 100 0.003 (randFix ("BTC") 0).snap)).map
        (fun s => s.time_remaining_secs)) =
      (List.range 30).map pyTimeRemaining := by
    rw [List.map_map]
    refine List.map_congr_left ?_
    intro i _
    exact snapshot_body_time simFix (klineFix 0 100 100) 100 0.003 _ i _
      (snapshot_body_ok _ _ _ _ _ i (by norm_num))
  simp only [Except.toOption, Option.getD, List.map_cons, List.map_nil, htimes]
  rfl

/-- Two candles with closes `1` and `-1`: the return pass reaches
`math.log(-1/1)`, which raises — the `prev > 0` guard does not cover a
non-positive *current* close. -/
lemma calculate_volatility_neg_close :
    calculate_volatility [klineFix 0 1 1, klineFix 900 1 (-1)] =
      Except.error ("math domain error") := by
  have hlog : pyLog ((-1 : ℝ) / 1) = Except.error ("math domain error") := by
    simp only [pyLog]
    rw [if_neg (by norm_num)]
  have h1 : volatility_returns [((klineFix 0 1 1), (klineFix 900 1 (-1)))] =
      Except.error ("math domain error") := by
    simp only [volatility_returns, klineFix]
    rw [if_pos (by norm_num), hlog]
    rfl
  have h2 : ∀ f : List ℝ → Except String ℝ,
      (volatility_returns [((klineFix 0 1 1), (klineFix 900 1 (-1)))] >>= f) =
        Except.error ("math domain error") := by
    intro f
    rw [h1]
    rfl
  exact h2 _

/-- C5, code bug: market generation *can* raise.  On the two-candle input
whose second close is `-1`, the volatility pass of the second market
evaluates `math.log(-1.0)` (only `prev > 0` is guarded, not `curr > 0`)
and the `ValueError` propagates out of `generate_markets` — no guard
branch intercepts it, contrary to the claim's propagation policy. -/
theorem claim_C5_generation_raises :
    generate_markets simFix randFix [klineFix 0 1 1, klineFix 900 1 (-1)] =
      Except.error ("math domain error") := by
  have hθ : generate_threshold (klineFix 0 1 1) (randFix ("BTC") 0).offset
      (randFix ("BTC") 0).dir = 1 := generate_threshold_eval_1 0 1 1
  have hsnap0 := generate_snapshots_ok simFix (klineFix 0 1 1) 1 [klineFix 0 1 1]
    0.003 ((randFix ("BTC") 0).snap) (by norm_num) (calculate_volatility_single _)
  have hm0 : make_market simFix (randFix ("BTC") 0) ("BTC") (klineFix 0 1 1)
      [klineFix 0 1 1] =
      Except.ok
        { market_id := ("BTC_0")
          symbol := ("BTC")
          threshold := 1
          start_time := 0
          resolution_time := 900
          outcome := decide ((1 : ℝ) < (klineFix 0 1 1).close)
          snapshots := (List.range 30).map
            (snapshot_pure simFix (klineFix 0 1 1) 1 0.003 (randFix ("BTC") 0).snap) } := by
    simp only [make_market, hθ, hsnap0]
    rfl
  have hm1 : make_market simFix (randFix ("BTC") 1) ("BTC") (klineFix 900 1 (-1))
      [klineFix 0 1 1, klineFix 900 1 (-1)] =
      Except.error ("math domain error") := by
    have herr : generate_snapshots simFix (klineFix 900 1 (-1))
        (generate_threshold (klineFix 900 1 (-1)) (randFix ("BTC") 1).offset
          (randFix ("BTC") 1).dir)
        [klineFix 0 1 1, klineFix 900 1 (-1)] ((randFix ("BTC") 1).snap) =
        Except.error ("math domain error") := by
      simp only [generate_snapshots, calculate_volatility_neg_close]
      rfl
    simp only [make_market, herr]
    rfl
  have hmfs : markets_for_symbol simFix (randFix ("BTC")) ("BTC")
      [klineFix 0 1 1, klineFix 900 1 (-1)] = Except.error ("math domain error") := by
    have hstep : markets_for_symbol simFix (randFix ("BTC")) ("BTC")
        [klineFix 0 1 1, klineFix 900 1 (-1)] =
        (do
          let y ← make_market simFix (randFix ("BTC") 0) ("BTC") (klineFix 0 1 1)
            [klineFix 0 1 1]
          let ys ← (do
            let y2 ← make_market simFix (randFix ("BTC") 1) ("BTC") (klineFix 900 1 (-1))
              [klineFix 0 1 1, klineFix 900 1 (-1)]
            let ys2 ← (Except.ok [] : Except String (List SimulatedMarket))
            Except.ok (y2 :: ys2))
          Except.ok (y :: ys)) := rfl
    rw [hstep, hm0, hm1]
    rfl
  have hstep2 : generate_markets simFix randFix [klineFix 0 1 1, klineFix 900 1 (-1)] =
      (do
        let lists ← (do
          let y ← markets_for_symbol simFix (randFix ("BTC")) ("BTC")
            [klineFix 0 1 1, klineFix 900 1 (-1)]
          let ys ← (Except.ok [] : Except String (List (List SimulatedMarket)))
          Except.ok (y :: ys))
        Except.ok lists.flatten) := rfl
  rw [hstep2, hmfs]
  rfl

/-- The engine's snapshot scan factors through the pure fold `pickAux` over
the signals emitted during the scan. -/
lemma best_signal_loop_eq_pickAux (market : SimulatedMarket) :
    ∀ (snaps : List Snapshot) (s : VolatilityArbStrategy) (acc : Option Signal × ℝ),
      (best_signal_loop s market acc snaps).1 =
        pickAux acc (emitted_signals s market snaps) := by
  intro snaps
  induction snaps with
  | nil => intro s acc; rfl
  | cons snap rest ih =>
    intro s acc
    simp only [best_signal_loop, emitted_signals]
    cases h : (analyze s market snap).1 with
    | some sig =>
      simp only [h, pickAux]
      exact ih _ _
    | none =>
      simp only [h]
      exact ih _ _

/-- Characterization of the pure best-signal fold: either the accumulator
survives (everything in the list has confidence at most the running best),
or the result is the *first* element attaining the strict maximum — every
earlier element has strictly smaller confidence, every later element at
most equal. -/
lemma pickAux_spec :
    ∀ (l : List Signal) (b : Option Signal) (c : ℝ),
      (pickAux (b, c) l = (b, c) ∧ ∀ x ∈ l, x.confidence ≤ c) ∨
      (∃ s l₁ l₂, pickAux (b, c) l = (some s, s.confidence) ∧ l = l₁ ++ s :: l₂ ∧
        c < s.confidence ∧ (∀ x ∈ l₁, x.confidence < s.confidence) ∧
        (∀ x ∈ l₂, x.confidence ≤ s.confidence)) := by
  intro l
  induction l with
  | nil =>
    intro b c
    left
    exact ⟨rfl, by simp⟩
  | cons x xs ih =>
    intro b c
    by_cases hx : c < x.confidence
    · have hstep : pickAux (b, c) (x :: xs) = pickAux (some x, x.confidence) xs := by
        simp only [pickAux, if_pos hx]
      rcases ih (some x) x.confidence with ⟨heq, hall⟩ | ⟨s, l₁, l₂, heq, hsplit, hlt, h1, h2⟩
      · right
        exact ⟨x, [], xs, by rw [hstep, heq], rfl, hx, by simp, hall⟩
      · right
        refine ⟨s, x :: l₁, l₂, by rw [hstep, heq], by rw [hsplit]; rfl, lt_trans hx hlt, ?_, h2⟩
        intro y hy
        rcases List.mem_cons.mp hy with rfl | hy2
        · exact hlt
        · exact h1 y hy2
    · have hstep : pickAux (b, c) (x :: xs) = pickAux (b, c) xs := by
        simp only [pickAux, if_neg hx]
      rcases ih b c with ⟨heq, hall⟩ | ⟨s, l₁, l₂, heq, hsplit, hlt, h1, h2⟩
      · left
        refine ⟨by rw [hstep, heq], ?_⟩
        intro y hy
        rcases List.mem_cons.mp hy with rfl | hy2
        · exact not_lt.mp hx
        · exact hall y hy2
      · right
        refine ⟨s, x :: l₁, l₂, by rw [hstep, heq], by rw [hsplit]; rfl, hlt, ?_, h2⟩
        intro y hy
        rcases List.mem_cons.mp hy with rfl | hy2
        · exact lt_of_le_of_lt (not_lt.mp hx) hlt
        · exact h1 y hy2

/-- `analyze` never changes the strategy's configuration fields (it only
touches `vol_estimates`); in particular the fee rate is preserved. -/
lemma analyze_fee (s : VolatilityArbStrategy) (m : SimulatedMarket) (snap : Snapshot) :
    ((analyze s m snap).2).pm_fee_rate = s.pm_fee_rate := by
  have hg : ((get_volatility_estimate s m.symbol).2).pm_fee_rate = s.pm_fee_rate := by
    simp only [get_volatility_estimate]
    split_ifs <;> rfl
  simp only [analyze]
  split_ifs <;> first | rfl | exact hg

/-- The scan preserves the fee rate. -/
lemma best_signal_loop_fee (market : SimulatedMarket) :
    ∀ (snaps : List Snapshot) (s : VolatilityArbStrategy) (acc : Option Signal × ℝ),
      ((best_signal_loop s market acc snaps).2).pm_fee_rate = s.pm_fee_rate := by
  intro snaps
  induction snaps with
  | nil => intro s acc; rfl
  | cons snap rest ih =>
    intro s acc
    simp only [best_signal_loop]
    rw [ih]
    exact analyze_fee s market snap

/-- The volatility feed preserves the fee rate. -/
lemma feed_volatility_fee (st : EngineState) (market : SimulatedMarket) :
    ((feed_volatility st market).strategy).pm_fee_rate = st.strategy.pm_fee_rate := by
  simp only [feed_volatility]
  cases market.snapshots <;> rfl

/-- C1, confirmed: each processed market appends at most one trade, and
when the scan selects a signal, that signal is one `analyze` emitted
during the scan, its confidence is positive and strictly exceeds the
confidence of every signal emitted before it (strict `>` keeps the
first-seen maximum) and is at least that of every signal emitted after
it; the appended trade embeds exactly that signal. -/
theorem claim_C1_one_best_trade_per_market (st : EngineState) (market : SimulatedMarket) :
    (process_market st market).trades.length ≤ st.trades.length + 1 ∧
    (∀ sig,
      (best_signal_loop (feed_volatility st market).strategy market (none, 0)
          market.snapshots).1.1 = some sig →
      0 < sig.confidence ∧
      (∃ l₁ l₂,
        emitted_signals (feed_volatility st market).strategy market market.snapshots =
          l₁ ++ sig :: l₂ ∧
        (∀ x ∈ l₁, x.confidence < sig.confidence) ∧
        (∀ x ∈ l₂, x.confidence ≤ sig.confidence)) ∧
      (process_market st market).trades =
        st.trades ++ [trade_of market st.strategy.pm_fee_rate sig]) := by
  have hfactor := best_signal_loop_eq_pickAux market market.snapshots
    (feed_volatility st market).strategy (none, 0)
  have hspec := pickAux_spec
    (emitted_signals (feed_volatility st market).strategy market market.snapshots)
    none 0
  have htr : (feed_volatility st market).trades = st.trades := by
    simp only [feed_volatility]
    cases market.snapshots <;> rfl
  constructor
  · simp only [process_market]
    cases hscan : (best_signal_loop (feed_volatility st market).strategy market (none, 0)
        market.snapshots).1.1 with
    | none => simp [hscan, htr]
    | some sig => simp [hscan, htr]
  · intro sig hsig
    rcases hspec with ⟨heq, _⟩ | ⟨s, l₁, l₂, heq, hsplit, hpos, h1, h2⟩
    · rw [hfactor, heq] at hsig
      exact absurd hsig (by simp)
    · rw [hfactor, heq] at hsig
      have hs : s = sig := by
        simpa using congrArg id hsig
      subst hs
      refine ⟨hpos, ⟨l₁, l₂, hsplit, h1, h2⟩, ?_⟩
      have hfee : ((best_signal_loop (feed_volatility st market).strategy market (none, 0)
          market.snapshots).2).pm_fee_rate = st.strategy.pm_fee_rate := by
        rw [best_signal_loop_fee market market.snapshots (feed_volatility st market).strategy
          (none, 0), feed_volatility_fee]
      simp only [process_market]
      rw [show (best_signal_loop (feed_volatility st market).strategy market (none, 0)
          market.snapshots).1.1 = some s from by rw [hfactor, heq]]
      simp only [htr, hfee]

/-- The weighted volatility estimate of an all-zero window is 0, and the
state is untouched when the symbol is already present. -/
lemma getVol_zero_list (s : VolatilityArbStrategy) (sym : String) (l : List ℝ)
    (hl : l.isEmpty = false) (hz : ∀ x ∈ l, x = 0)
    (hd : dictGet s.vol_estimates sym = (l, s.vol_estimates)) :
    get_volatility_estimate s sym = (0, s) := by
  simp only [get_volatility_estimate, hd, hl]
  have hnum : ((l.zip ((List.range l.length).map (fun j : ℕ => (j : ℝ) + 1))).map
      (fun p => p.1 * p.2)).sum = 0 := by
    apply List.sum_eq_zero
    intro x hx
    rcases List.mem_map.mp hx with ⟨p, hp, rfl⟩
    have hp1 : p.1 = 0 := hz p.1 (List.of_mem_zip hp).1
    rw [hp1, zero_mul]
  rw [if_neg (by simp), hnum, zero_div]

/-- The estimate for the one-feed fixture strategy. -/
lemma getVol_sFix1 : get_volatility_estimate sFix1 ("BTC") = (0, sFix1) :=
  getVol_zero_list sFix1 ("BTC") [0] rfl (by simp) rfl

/-- The estimate for the two-feed fixture strategy. -/
lemma getVol_sFix2 : get_volatility_estimate sFix2 ("BTC") = (0, sFix2) :=
  getVol_zero_list sFix2 ("BTC") [0, 0] rfl (by simp) rfl

/-- Full evaluation of `analyze` on the fixture market and snapshot when
the strategy's estimate is 0: a YES signal at the ask with degenerate fair
value 1 and confidence 1. -/
lemma analyze_fix_eval (s : VolatilityArbStrategy) (ask : ℝ) (i : ℕ)
    (hg : get_volatility_estimate s ("BTC") = (0, s))
    (hd1 : s.min_time_remaining = 120) (hd2 : s.max_time_remaining = 600)
    (hd3 : s.min_buffer_pct = 0.001) (hd4 : s.max_buffer_pct = 0.02)
    (hd5 : s.min_vol_edge_pct = 0.15) (hd6 : s.pm_fee_rate = 0.02)
    (hd7 : s.position_size = 100) (hd8 : s.min_price_edge = 0.03)
    (hnet : ¬((1 : ℝ) - ask - 0.02 < 0.03))
    (hconf : min 1 (((1 : ℝ) - ask - 0.02) * 10) = 1) :
    analyze s (marketFix i ask) (snapFix ask) = (some (sigFix i ask), s) := by
  have habs : |(0.01 : ℝ)| = 0.01 := abs_of_pos (by norm_num)
  have hedge : (if (0 : ℝ) < 0.01 then |(0 : ℝ) - 0.01| / 0.01 else 0) = 1 := by
    rw [if_pos (by norm_num), show (0 : ℝ) - 0.01 = -(0.01) by norm_num, abs_neg, habs]
    norm_num
  have hfair : calculate_fair_yes_price 0.01 0 ((((300 : ℤ) : ℝ)) / 900) = 1 := by
    simp only [calculate_fair_yes_price]
    rw [if_pos (Or.inl le_rfl), if_pos (by norm_num)]
  simp only [analyze, marketFix, snapFix, hd1, hd2, hd3, hd4, hd5, hd6, hd7, hd8]
  rw [if_neg (by norm_num), if_neg (by norm_num), if_neg (by rw [habs]; norm_num),
    if_neg (by rw [habs]; norm_num), hg]
  simp only [hedge]
  rw [if_neg (by norm_num), hfair, if_pos (by norm_num : (0 : ℝ) < 0.01)]
  rw [if_neg (by simpa using hnet)]
  simp only [sigFix]
  rw [show ((900 : ℤ) - 300) = 600 from by norm_num, if_pos trivial,
    show ((1 : ℝ) ⊓ (1 * 2)) = 1 from by rw [one_mul]; exact min_eq_left (by norm_num),
    one_mul, hconf]

/-- Executing the fixture signal: a YES win at exit 1, with
`pnl = 100 - 102·ask` (100 shares, 2% fee on cost). -/
lemma trade_of_fix (i : ℕ) (ask : ℝ) (hask : 0 < ask) :
    trade_of (marketFix i ask) 0.02 (sigFix i ask) =
      { signal := sigFix i ask, exit_price := 1, won := true,
        pnl := 100 - ask * 102, pnl_pct := (100 - ask * 102) / (ask * 100) } := by
  have hb : ((((("YES") : String) == ("YES")) == true) = true) := rfl
  have hcost : (0 : ℝ) < ask * ((100 : ℤ) : ℝ) := by
    rw [show (((100 : ℤ) : ℝ)) = 100 from by norm_num]
    exact mul_pos hask (by norm_num)
  simp only [trade_of, sigFix, marketFix, Trade.mk.injEq]
  rw [if_pos hb, if_pos hcost]
  refine ⟨trivial, rfl, hb, by push_cast; ring, ?_⟩
  rw [show (1 : ℝ) * ((100 : ℤ) : ℝ) - ask * ((100 : ℤ) : ℝ) - ask * ((100 : ℤ) : ℝ) * 0.02 =
    100 - ask * 102 from by push_cast; ring]
  rw [show ask * (((100 : ℤ) : ℝ)) = ask * 100 from by norm_num]

/-- Full evaluation of one engine step on the fixture market, from an
arbitrary engine state whose strategy turns into `s1` after the
volatility feed. -/
lemma process_market_eval (s s1 : VolatilityArbStrategy) (i : ℕ) (ask e pk : ℝ)
    (tr : List Trade) (cv : List (ℤ × ℝ)) (sg : ℕ)
    (hfeed : update_volatility s ("BTC") 0 = s1)
    (hana : analyze s1 (marketFix i ask) (snapFix ask) = (some (sigFix i ask), s1))
    (hfee : s1.pm_fee_rate = 0.02)
    (hask : 0 < ask) :
    process_market
        { strategy := s, equity := e, peak_equity := pk, trades := tr, curve := cv,
          signals := sg }
        (marketFix i ask) =
      { strategy := s1,
        equity := e + (100 - ask * 102),
        peak_equity := if pk < e + (100 - ask * 102) then e + (100 - ask * 102) else pk,
        trades := tr ++ [{ signal := sigFix i ask, exit_price := 1, won := true,
                           pnl := 100 - ask * 102,
                           pnl_pct := (100 - ask * 102) / (ask * 100) }],
        curve := cv ++ [((900 * (i : ℤ) + 900 : ℤ), e + (100 - ask * 102))],
        signals := sg + 1 } := by
  have hfeed2 : feed_volatility
      { strategy := s, equity := e, peak_equity := pk, trades := tr, curve := cv,
        signals := sg } (marketFix i ask) =
      { strategy := s1, equity := e, peak_equity := pk, trades := tr, curve := cv,
        signals := sg } := by
    simp only [feed_volatility, marketFix, snapFix]
    rw [hfeed]
  have hconf1 : ((none : Option Signal), (0 : ℝ)).2 < (sigFix i ask).confidence := by
    simp [sigFix]
  have hscan : best_signal_loop s1 (marketFix i ask) (none, 0) (marketFix i ask).snapshots =
      ((some (sigFix i ask), (sigFix i ask).confidence), s1) := by
    show best_signal_loop s1 (marketFix i ask) (none, 0) [snapFix ask] = _
    simp only [best_signal_loop, hana, if_pos hconf1]
  simp only [process_market, hfeed2, hscan]
  rw [hfee, trade_of_fix i ask hask]
  rfl

/-- One volatility feed of 0 into a fresh strategy. -/
lemma update_volatility_fresh : update_volatility stratFresh ("BTC") 0 = sFix1 := rfl

/-- A second volatility feed of 0. -/
lemma update_volatility_sFix1 : update_volatility sFix1 ("BTC") 0 = sFix2 := rfl

/-- `analyze` on the fixture at ask 0.5 under the one-feed strategy. -/
lemma analyze_sFix1_half (i : ℕ) :
    analyze sFix1 (marketFix i 0.5) (snapFix 0.5) = (some (sigFix i 0.5), sFix1) :=
  analyze_fix_eval sFix1 0.5 i getVol_sFix1 rfl rfl rfl rfl rfl rfl rfl rfl
    (by norm_num) (min_eq_left (by norm_num))

/-- `analyze` on the fixture at ask 0.5 under the two-feed strategy. -/
lemma analyze_sFix2_half (i : ℕ) :
    analyze sFix2 (marketFix i 0.5) (snapFix 0.5) = (some (sigFix i 0.5), sFix2) :=
  analyze_fix_eval sFix2 0.5 i getVol_sFix2 rfl rfl rfl rfl rfl rfl rfl rfl
    (by norm_num) (min_eq_left (by norm_num))

/-- `analyze` on the fixture at ask 0.4 under the two-feed strategy. -/
lemma analyze_sFix2_p4 (i : ℕ) :
    analyze sFix2 (marketFix i 0.4) (snapFix 0.4) = (some (sigFix i 0.4), sFix2) :=
  analyze_fix_eval sFix2 0.4 i getVol_sFix2 rfl rfl rfl rfl rfl rfl rfl rfl
    (by norm_num) (min_eq_left (by norm_num))

/-- Engine loop on the single fixture market: one trade with PnL 49 and
return 98%. -/
lemma run_loop_eval_A :
    run_loop stratFresh 1000 [marketFix 0 0.5] =
      { strategy := sFix1, equity := 1049, peak_equity := 1049,
        trades := [tradeFix 0 0.5 49 (49 / 50)], curve := [((900 : ℤ), 1049)],
        signals := 1 } := by
  show process_market
      { strategy := stratFresh, equity := 1000, peak_equity := 1000, trades := [],
        curve := [], signals := 0 } (marketFix 0 0.5) = _
  rw [process_market_eval stratFresh sFix1 0 0.5 1000 1000 [] [] 0 update_volatility_fresh
    (analyze_sFix1_half 0) rfl (by norm_num)]
  rw [if_pos (by norm_num : (1000 : ℝ) < 1000 + (100 - 0.5 * 102))]
  norm_num [tradeFix, EngineState.mk.injEq, Trade.mk.injEq, Prod.mk.injEq]

/-- Engine loop on two identical fixture markets: two trades, each with
PnL 49 and the same 98% return. -/
lemma run_loop_eval_B :
    run_loop stratFresh 1000 [marketFix 0 0.5, marketFix 1 0.5] =
      { strategy := sFix2, equity := 1098, peak_equity := 1098,
        trades := [tradeFix 0 0.5 49 (49 / 50), tradeFix 1 0.5 49 (49 / 50)],
        curve := [((900 : ℤ), 1049), ((1800 : ℤ), 1098)], signals := 2 } := by
  show process_market (process_market
      { strategy := stratFresh, equity := 1000, peak_equity := 1000, trades := [],
        curve := [], signals := 0 } (marketFix 0 0.5)) (marketFix 1 0.5) = _
  rw [process_market_eval stratFresh sFix1 0 0.5 1000 1000 [] [] 0 update_volatility_fresh
    (analyze_sFix1_half 0) rfl (by norm_num)]
  rw [process_market_eval sFix1 sFix2 1 0.5 _ _ _ _ _ update_volatility_sFix1
    (analyze_sFix2_half 1) rfl (by norm_num)]
  norm_num [tradeFix, EngineState.mk.injEq, Trade.mk.injEq, Prod.mk.injEq]

/-- Engine loop on two fixture markets with different asks: trades with
returns 98% and 148%. -/
lemma run_loop_eval_C :
    run_loop stratFresh 1000 [marketFix 0 0.5, marketFix 1 0.4] =
      { strategy := sFix2, equity := 1108.2, peak_equity := 1108.2,
        trades := [tradeFix 0 0.5 49 (49 / 50), tradeFix 1 0.4 59.2 1.48],
        curve := [((900 : ℤ), 1049), ((1800 : ℤ), 1108.2)], signals := 2 } := by
  show process_market (process_market
      { strategy := stratFresh, equity := 1000, peak_equity := 1000, trades := [],
        curve := [], signals := 0 } (marketFix 0 0.5)) (marketFix 1 0.4) = _
  rw [process_market_eval stratFresh sFix1 0 0.5 1000 1000 [] [] 0 update_volatility_fresh
    (analyze_sFix1_half 0) rfl (by norm_num)]
  rw [process_market_eval sFix1 sFix2 1 0.4 _ _ _ _ _ update_volatility_sFix1
    (analyze_sFix2_p4 1) rfl (by norm_num)]
  norm_num [tradeFix, EngineState.mk.injEq, Trade.mk.injEq, Prod.mk.injEq]

/-- Square root of 100 is 10 (the literal annualization constant). -/
lemma sqrt_hundred : Real.sqrt 100 = 10 := by
  rw [show (100 : ℝ) = 10 ^ 2 from by norm_num, Real.sqrt_sq (by norm_num : (0 : ℝ) ≤ 10)]

/-- The volatility feed touches only the strategy. -/
lemma feed_volatility_fields (st : EngineState) (m : SimulatedMarket) :
    (feed_volatility st m).equity = st.equity ∧
    (feed_volatility st m).peak_equity = st.peak_equity ∧
    (feed_volatility st m).trades = st.trades ∧
    (feed_volatility st m).curve = st.curve ∧
    (feed_volatility st m).signals = st.signals := by
  simp only [feed_volatility]
  cases m.snapshots <;> exact ⟨rfl, rfl, rfl, rfl, rfl⟩

/-- One engine step preserves the run invariant. -/
lemma process_market_inv (cap : ℝ) (st : EngineState) (m : SimulatedMarket)
    (h : EngineInv cap st) : EngineInv cap (process_market st m) := by
  obtain ⟨h1, h2, h3, h4⟩ := h
  obtain ⟨f1, f2, f3, f4, f5⟩ := feed_volatility_fields st m
  simp only [EngineInv, process_market]
  cases hscan : (best_signal_loop (feed_volatility st m).strategy m (none, 0)
      m.snapshots).1.1 with
  | none =>
    simp only [hscan]
    exact ⟨by rw [f3, f4, h1], by rw [f5, f3, h2], by rw [f1, f3, h3], by
      rcases h4 with hl | ⟨hc, ht⟩
      · left; rw [f4, f1, hl]
      · right; exact ⟨by rw [f4, hc], by rw [f3, ht]⟩⟩
  | some sig =>
    simp only [hscan]
    refine ⟨?_, ?_, ?_, ?_⟩
    · simp [f3, f4, h1]
    · simp [f5, f3, h2]
    · simp only [List.map_append, List.sum_append, f1, f3, h3, List.map_cons, List.map_nil,
        List.sum_cons, List.sum_nil]
      ring
    · left
      simp only [List.map_append, List.map_cons, List.map_nil, List.getLast?_concat, f1]

/-- The loop invariant holds at the end of the market loop. -/
lemma run_loop_inv (strategy : VolatilityArbStrategy) (cap : ℝ)
    (markets : List SimulatedMarket) : EngineInv cap (run_loop strategy cap markets) := by
  have hgen : ∀ (l : List SimulatedMarket) (st : EngineState),
      EngineInv cap st → EngineInv cap (l.foldl process_market st) := by
    intro l
    induction l with
    | nil => intro st h; exact h
    | cons m rest ih => intro st h; exact ih _ (process_market_inv cap st m h)
  exact hgen markets _ ⟨rfl, rfl, by simp, Or.inr ⟨rfl, rfl⟩⟩

/-- C10, confirmed: after `BacktestEngine.run`, the equity curve has
exactly one entry per executed trade (`equity_curve.length = total_trades
= total_signals = trades.length`), `total_pnl` is the sum of the trades'
PnL, and when at least one trade exists the equity of the last curve entry
is `initial_capital + total_pnl`. -/
theorem claim_C10_equity_curve (strategy : VolatilityArbStrategy) (cap : ℝ)
    (markets : List SimulatedMarket) :
    (run strategy cap markets).equity_curve.length = (run strategy cap markets).total_trades ∧
    (run strategy cap markets).total_trades = (run strategy cap markets).total_signals ∧
    (run strategy cap markets).total_trades = (run strategy cap markets).trades.length ∧
    (run strategy cap markets).total_pnl =
      ((run strategy cap markets).trades.map (fun t => t.pnl)).sum ∧
    ((run strategy cap markets).trades ≠ [] →
      ((run strategy cap markets).equity_curve.map Prod.snd).getLast? =
        some (cap + (run strategy cap markets).total_pnl)) := by
  obtain ⟨h1, h2, h3, h4⟩ := run_loop_inv strategy cap markets
  by_cases hE : (run_loop strategy cap markets).trades.isEmpty = true
  · have hnil : (run_loop strategy cap markets).trades = [] := List.isEmpty_iff.mp hE
    simp only [run, if_pos hE]
    refine ⟨h1.symm, h2.symm, trivial, by rw [hnil]; rfl, ?_⟩
    intro hne
    exact absurd hnil hne
  · have hne : (run_loop strategy cap markets).trades ≠ [] := by
      intro hnil
      exact hE (by rw [hnil]; rfl)
    simp only [run, if_neg hE]
    refine ⟨h1.symm, h2.symm, trivial, trivial, ?_⟩
    intro _
    rcases h4 with hl | ⟨_, ht⟩
    · rw [hl, h3]
    · exact absurd ht hne

/-- Evaluated trades of the single-market fixture run. -/
lemma run_trades_A :
    (run stratFresh 1000 [marketFix 0 0.5]).trades = [tradeFix 0 0.5 49 (49 / 50)] := by
  simp only [run, run_loop_eval_A]
  rfl

/-- C10, witness: the invariant theorem applied to the single-market
fixture run, which executes one trade of PnL 49. -/
theorem claim_C10_witness :
    (run stratFresh 1000 [marketFix 0 0.5]).trades ≠ [] ∧
      ((run stratFresh 1000 [marketFix 0 0.5]).equity_curve.map Prod.snd).getLast? =
        some (1000 + (run stratFresh 1000 [marketFix 0 0.5]).total_pnl) := by
  have hne : (run stratFresh 1000 [marketFix 0 0.5]).trades ≠ [] := by
    rw [run_trades_A]
    simp
  exact ⟨hne, (claim_C10_equity_curve stratFresh 1000 [marketFix 0 0.5]).2.2.2.2 hne⟩

/-- C4, amended: the reported Sharpe ratio is
`mean(pnl_pct)/std(pnl_pct) · sqrt 100` over the executed trades when
there are at least two trades and the standard deviation is positive; it
is `0` when there are fewer than two trades; but when the standard
deviation is zero with at least two trades the code substitutes `1` for
the standard deviation and reports `mean(pnl_pct) · sqrt 100`, not 0. -/
theorem claim_C4_sharpe_characterization (strategy : VolatilityArbStrategy) (cap : ℝ)
    (markets : List SimulatedMarket) :
    (((run strategy cap markets).trades.map (fun t => t.pnl_pct)).length ≤ 1 →
      (run strategy cap markets).sharpe_ratio = 0) ∧
    (∀ mean var : ℝ,
      mean = ((run strategy cap markets).trades.map (fun t => t.pnl_pct)).sum /
        ((((run strategy cap markets).trades.map (fun t => t.pnl_pct)).length : ℕ) : ℝ) →
      var = (((run strategy cap markets).trades.map (fun t => t.pnl_pct)).map
          (fun r => (r - mean) ^ 2)).sum /
        ((((run strategy cap markets).trades.map (fun t => t.pnl_pct)).length : ℕ) : ℝ) →
      1 < ((run strategy cap markets).trades.map (fun t => t.pnl_pct)).length →
      ((0 < var →
          (run strategy cap markets).sharpe_ratio = mean / Real.sqrt var * Real.sqrt 100) ∧
        (var = 0 → (run strategy cap markets).sharpe_ratio = mean * Real.sqrt 100))) := by
  by_cases hE : (run_loop strategy cap markets).trades.isEmpty = true
  · have hnil : (run_loop strategy cap markets).trades = [] := List.isEmpty_iff.mp hE
    simp only [run, if_pos hE]
    constructor
    · intro _
      trivial
    · intro mean var _ _ hlen
      rw [hnil] at hlen
      exact absurd hlen (by simp)
  · simp only [run, if_neg hE]
    constructor
    · intro hlen
      rw [if_neg (not_lt.mpr hlen)]
    · intro mean var hm hv hlen
      rw [if_pos hlen, ← hm, ← hv]
      constructor
      · intro hvar
        rw [if_pos hvar]
      · intro hvar
        rw [hvar, if_neg (by norm_num), div_one]

/-- Evaluated trades of the two-identical-market fixture run. -/
lemma run_trades_B :
    (run stratFresh 1000 [marketFix 0 0.5, marketFix 1 0.5]).trades =
      [tradeFix 0 0.5 49 (49 / 50), tradeFix 1 0.5 49 (49 / 50)] := by
  simp only [run, run_loop_eval_B]
  rfl

/-- Evaluated trades of the two-distinct-market fixture run. -/
lemma run_trades_C :
    (run stratFresh 1000 [marketFix 0 0.5, marketFix 1 0.4]).trades =
      [tradeFix 0 0.5 49 (49 / 50), tradeFix 1 0.4 59.2 1.48] := by
  simp only [run, run_loop_eval_C]
  rfl

/-- A run over no markets produces no trades. -/
lemma run_trades_empty :
    (run stratFresh 1000 ([] : List SimulatedMarket)).trades = [] := by
  simp only [run]
  rfl

/-- The reported Sharpe value of the two-identical-trade run: variance is
zero, the code substitutes a standard deviation of 1, and the result is
`0.98 · 10 = 9.8`. -/
lemma run_sharpe_B :
    (run stratFresh 1000 [marketFix 0 0.5, marketFix 1 0.5]).sharpe_ratio = 9.8 := by
  simp only [run, run_loop_eval_B]
  norm_num [tradeFix, sqrt_hundred]

/-- C4, counterexample: the two-identical-market run executes two trades
with the same `pnl_pct = 0.98`, so the standard deviation of `pnl_pct` is
zero — yet the reported Sharpe ratio is `9.8`, not `0` as the claim
states. -/
theorem claim_C4_counterexample :
    ((run stratFresh 1000 [marketFix 0 0.5, marketFix 1 0.5]).trades.map
        (fun t => t.pnl_pct)) = [49 / 50, 49 / 50] ∧
      (run stratFresh 1000 [marketFix 0 0.5, marketFix 1 0.5]).sharpe_ratio = 9.8 ∧
      (9.8 : ℝ) ≠ 0 := by
  refine ⟨?_, run_sharpe_B, by norm_num⟩
  rw [run_trades_B]
  simp [tradeFix]

/-- C4, witness: the characterization applied to three concrete runs — no
trades (Sharpe 0), two distinct returns (`mean/std · sqrt 100`), and two
identical returns (`mean · sqrt 100` via the substituted unit standard
deviation). -/
theorem claim_C4_witness :
    (run stratFresh 1000 ([] : List SimulatedMarket)).sharpe_ratio = 0 ∧
      (run stratFresh 1000 [marketFix 0 0.5, marketFix 1 0.4]).sharpe_ratio =
        1.23 / Real.sqrt 0.0625 * Real.sqrt 100 ∧
      (run stratFresh 1000 [marketFix 0 0.5, marketFix 1 0.5]).sharpe_ratio =
        (49 / 50) * Real.sqrt 100 := by
  refine ⟨?_, ?_, ?_⟩
  · exact (claim_C4_sharpe_characterization stratFresh 1000 []).1
      (by rw [run_trades_empty]; simp)
  · exact (((claim_C4_sharpe_characterization stratFresh 1000
        [marketFix 0 0.5, marketFix 1 0.4]).2 1.23 0.0625
      (by rw [run_trades_C]; norm_num [tradeFix])
      (by rw [run_trades_C]; norm_num [tradeFix])
      (by rw [run_trades_C]; norm_num)).1 (by norm_num))
  · exact (((claim_C4_sharpe_characterization stratFresh 1000
        [marketFix 0 0.5, marketFix 1 0.5]).2 (49 / 50) 0
      (by rw [run_trades_B]; norm_num [tradeFix])
      (by rw [run_trades_B]; norm_num [tradeFix])
      (by rw [run_trades_B]; norm_num)).2 rfl)

/-- C1, witness: the best-signal theorem applied to the fixture market,
whose scan selects the fixture signal (confidence 1) and appends exactly
one trade embedding it. -/
theorem claim_C1_witness :
    (best_signal_loop (feed_volatility initFix (marketFix 0 0.5)).strategy (marketFix 0 0.5)
        (none, 0) (marketFix 0 0.5).snapshots).1.1 = some (sigFix 0 0.5) ∧
      (0 < (sigFix 0 0.5).confidence ∧
        (∃ l₁ l₂,
          emitted_signals (feed_volatility initFix (marketFix 0 0.5)).strategy
              (marketFix 0 0.5) (marketFix 0 0.5).snapshots = l₁ ++ sigFix 0 0.5 :: l₂ ∧
          (∀ x ∈ l₁, x.confidence < (sigFix 0 0.5).confidence) ∧
          (∀ x ∈ l₂, x.confidence ≤ (sigFix 0 0.5).confidence)) ∧
        (process_market initFix (marketFix 0 0.5)).trades =
          initFix.trades ++ [trade_of (marketFix 0 0.5) initFix.strategy.pm_fee_rate
            (sigFix 0 0.5)]) := by
  have hstrat : (feed_volatility initFix (marketFix 0 0.5)).strategy = sFix1 := rfl
  have hscan : (best_signal_loop (feed_volatility initFix (marketFix 0 0.5)).strategy
      (marketFix 0 0.5) (none, 0) (marketFix 0 0.5).snapshots).1.1 =
      some (sigFix 0 0.5) := by
    rw [hstrat]
    show (best_signal_loop sFix1 (marketFix 0 0.5) (none, 0) [snapFix 0.5]).1.1 = _
    simp only [best_signal_loop, analyze_sFix1_half 0]
    rw [if_pos
      (by simp [sigFix] : ((none : Option Signal), (0 : ℝ)).2 < (sigFix 0 0.5).confidence)]
  exact ⟨hscan,
    (claim_C1_one_best_trade_per_market initFix (marketFix 0 0.5)).2 (sigFix 0 0.5) hscan⟩

end Ploy
